import Mathlib

/-!
# Snapshot rotation in `surf` (src/surf.go)

A shallow embedding of the per-droplet body of `main` (surf.go lines 97-181) and
the properties of the rotation decision it implements.

Every call the source makes to the provider (`Snapshots.Delete`,
`DropletActions.PowerOff`, `DropletActions.Snapshot`, `DropletActions.PowerOn`)
and the skip it logs for a droplet with a snapshot in progress is recorded as a
`Directive`, in the order the source performs it; `evaluate` returns that
record.  An error returned by one of these calls is only logged by the source
and never changes what it does next, so it does not appear in the model.

Modelling decisions:

* `time.Time` is the instant, counted in nanoseconds from Go's zero `Time`
  (0001-01-01T00:00:00Z); instants before it (year 0000, which RFC 3339 text can
  express) are negative.  `time.Duration` is a nanosecond count.
* `Time.Sub` saturates at the least and greatest `Duration`, as Go documents.
* `time.Parse(time.RFC3339, ·)` and `Time.Format(time.RFC3339)` belong to the Go
  standard library; they are parameters `parse` and `format` of the model.
* The source calls `time.Now()` afresh at line 139 (once for each matching,
  parseable snapshot), at line 152 and at line 165, with provider calls that
  take time in between.  The model counts these calls: `clock n` is the instant
  the call made after `n` earlier ones returns.  Nothing is assumed of the
  clock, which may stand still or step back, unless a theorem says so.
* Go strings are modelled by Lean strings, `strings.Contains` by the
  contiguous-substring test on their characters.
-/

namespace Surf

/-! ## Time -/

/-- An instant: nanoseconds elapsed since Go's zero `Time`. -/
abbrev Time := Int

/-- A `time.Duration`: a signed nanosecond count held in 64 bits. -/
abbrev Duration := Int

/-- The least `time.Duration`, `-1 << 63`. -/
def minDuration : Duration := -9223372036854775808

/-- The greatest `time.Duration`, `1<<63 - 1` (about 292.47 years). -/
def maxDuration : Duration := 9223372036854775807

/-- The zero value of `time.Time`, which `var latestSnapshotTime time.Time` holds. -/
def zeroTime : Time := 0

/-- Go's `time.Second`. -/
def second : Duration := 1000000000

/-- Go's `time.Hour`. -/
def hour : Duration := 3600 * second

/-- Twenty-four hours. -/
def day : Duration := 24 * hour

/-- The values a `time.Duration` can hold. -/
def Duration.valid (d : Duration) : Prop := minDuration ≤ d ∧ d ≤ maxDuration

instance (d : Duration) : Decidable (Duration.valid d) := by
  unfold Duration.valid; infer_instance

/-- Go's `t.Sub(u)`: the duration `t - u`, replaced by the least or the greatest
duration when it does not fit. -/
def timeSub (t u : Time) : Duration :=
  if t - u < minDuration then minDuration
  else if maxDuration < t - u then maxDuration
  else t - u

/-- Go's `t.After(u)`. -/
def timeAfter (t u : Time) : Bool := decide (u < t)

/-! ## Strings -/

/-- Whether `substr` occurs in `s` as a contiguous run, on character lists. -/
def containsChars (s substr : List Char) : Bool :=
  substr.isPrefixOf s ||
    match s with
    | [] => false
    | _ :: rest => containsChars rest substr

/-- Go's `strings.Contains(s, substr)`. -/
def Contains (s substr : String) : Bool := containsChars s.data substr.data

/-! ## Data -/

/-- One entry of a droplet's `snapshots` in the configuration (`SurfSnapshot`). -/
structure SurfSnapshot where
  Interval : Duration
  Keep : Duration
  Note : String
  PowerOff : Bool
deriving DecidableEq, Repr

/-- The fields of a `godo.Action` the source reads. -/
structure Action where
  Type_ : String
  Status : String
deriving DecidableEq, Repr

/-- The fields of a `godo.Image` (an existing snapshot of the droplet) the source
reads to decide; `Slug` only reaches log lines. -/
structure Image where
  ID : Int
  Name : String
  Created : String
deriving DecidableEq, Repr

/-- What the source does to the provider, or the skip it logs. `DeleteSnapshot`
carries the image ID the source prints with `%d`, `CreateSnapshot` the name passed
to `DropletActions.Snapshot`. -/
inductive Directive where
  | DeleteSnapshot (id : Int)
  | PowerOff
  | CreateSnapshot (name : String)
  | PowerOn
  | SkipInstance (reason : String)
deriving DecidableEq, Repr

/-! ## The rotation decision -/

/-- Lines 97-104: whether some action is a snapshot still in progress. -/
def snapshotsInProgress (actions : List Action) : Bool :=
  actions.any (fun action => action.Type_ == "snapshot" && action.Status == "in-progress")

/-- The line logged at 107 when the droplet is skipped. -/
def skipReason (dropletName : String) : String :=
  "[" ++ dropletName ++ "] snapshot actions currently in progress for this droplet"

/-- What the loop over the policies carries from one policy to the next:
everything done to the provider so far and the number of calls of `time.Now()`
made so far. -/
structure Run where
  emitted : List Directive
  reads : Nat
deriving DecidableEq, Repr

/-- The variables of the loop over the snapshots (lines 122-150): the latest
creation time seen, everything done to the provider so far and the number of
calls of `time.Now()` made so far. -/
structure Scan where
  latestSnapshotTime : Time
  emitted : List Directive
  reads : Nat
deriving DecidableEq, Repr

/-- One iteration of the loop over the snapshots, lines 123-149. The clock is read
once, at line 139, and only for a snapshot that matches and parses. -/
def scanSnapshot (parse : String → Option Time) (clock : Nat → Time)
    (snapshotInfo : SurfSnapshot) (st : Scan) (snapshot : Image) : Scan :=
  if !Contains snapshot.Name snapshotInfo.Note then st
  else
    match parse snapshot.Created with
    | none => st
    | some created =>
      let latest :=
        if timeAfter created st.latestSnapshotTime then created else st.latestSnapshotTime
      if timeSub (clock st.reads) created > snapshotInfo.Keep then
        ⟨latest, st.emitted ++ [Directive.DeleteSnapshot snapshot.ID], st.reads + 1⟩
      else
        ⟨latest, st.emitted, st.reads + 1⟩

/-- The loop over the snapshots for one policy, entered with the zero time
(line 120). -/
def scanSnapshots (parse : String → Option Time) (clock : Nat → Time) (snapshots : List Image)
    (snapshotInfo : SurfSnapshot) (run : Run) : Scan :=
  snapshots.foldl (scanSnapshot parse clock snapshotInfo) ⟨zeroTime, run.emitted, run.reads⟩

/-- The name given to a new snapshot at the instant `now`, line 165. -/
def snapshotName (format : Time → String) (now : Time) (snapshotInfo : SurfSnapshot) : String :=
  "surf: " ++ snapshotInfo.Note ++ " at " ++ format now

/-- One iteration of the loop over the policies, lines 120-180. After the loop over
the snapshots the clock is read at line 152 for the interval test and, when a
snapshot is due, once more at line 165 for its name. -/
def evalPolicy (parse : String → Option Time) (format : Time → String) (clock : Nat → Time)
    (snapshots : List Image) (run : Run) (snapshotInfo : SurfSnapshot) : Run :=
  let st := scanSnapshots parse clock snapshots snapshotInfo run
  if timeSub (clock st.reads) st.latestSnapshotTime > snapshotInfo.Interval then
    let out1 := if snapshotInfo.PowerOff then st.emitted ++ [Directive.PowerOff] else st.emitted
    let out2 := out1 ++
      [Directive.CreateSnapshot (snapshotName format (clock (st.reads + 1)) snapshotInfo)]
    ⟨if snapshotInfo.PowerOff then out2 ++ [Directive.PowerOn] else out2, st.reads + 2⟩
  else ⟨st.emitted, st.reads + 1⟩

/-- The body of the loop over the droplets from line 97 on, for one droplet whose
actions and snapshots were listed without error; `clock 0` is the first reading
taken for this droplet. -/
def evaluate (parse : String → Option Time) (format : Time → String) (clock : Nat → Time)
    (dropletName : String) (policies : List SurfSnapshot) (snapshots : List Image)
    (actions : List Action) : List Directive :=
  if snapshotsInProgress actions then [Directive.SkipInstance (skipReason dropletName)]
  else (policies.foldl (evalPolicy parse format clock snapshots) ⟨[], 0⟩).emitted

/-- The directives of one policy on its own: its iteration entered with nothing
emitted, after `reads` readings of the clock. -/
def policyDirectives (parse : String → Option Time) (format : Time → String)
    (clock : Nat → Time) (snapshots : List Image) (reads : Nat) (snapshotInfo : SurfSnapshot) :
    List Directive :=
  (evalPolicy parse format clock snapshots ⟨[], reads⟩ snapshotInfo).emitted

/-- The number of readings of the clock made when the iteration of a policy ends
that was entered after `reads` readings. -/
def readsAfter (parse : String → Option Time) (format : Time → String)
    (clock : Nat → Time) (snapshots : List Image) (reads : Nat) (snapshotInfo : SurfSnapshot) :
    Nat :=
  (evalPolicy parse format clock snapshots ⟨[], reads⟩ snapshotInfo).reads

/-- The number of readings of the clock made when the policies `earlier` have had
their iterations, that is, when the policy after them begins. -/
def readsBefore (parse : String → Option Time) (format : Time → String)
    (clock : Nat → Time) (snapshots : List Image) (earlier : List SurfSnapshot) : Nat :=
  (earlier.foldl (evalPolicy parse format clock snapshots) ⟨[], 0⟩).reads

/-- The value of `latestSnapshotTime` when the loop over the snapshots ends. -/
def latestSnapshotTime (parse : String → Option Time) (clock : Nat → Time)
    (snapshots : List Image) (snapshotInfo : SurfSnapshot) : Time :=
  (scanSnapshots parse clock snapshots snapshotInfo ⟨[], 0⟩).latestSnapshotTime

/-! ## The decision in the words of the specification -/

/-- The creation time of a snapshot a policy correlates with: the name contains
the policy label and the creation timestamp parses. -/
def createdAt (parse : String → Option Time) (snapshotInfo : SurfSnapshot)
    (snapshot : Image) : Option Time :=
  if Contains snapshot.Name snapshotInfo.Note then parse snapshot.Created else none

/-- The creation times of the matching, parseable snapshots, in list order. -/
def matchingTimes (parse : String → Option Time) (snapshots : List Image)
    (snapshotInfo : SurfSnapshot) : List Time :=
  snapshots.filterMap (createdAt parse snapshotInfo)

/-- The index of the reading of the clock that follows the loop over `seen`
entered after `reads` readings: one reading was made for each matching, parseable
snapshot. Over the whole snapshot list it is the reading of line 152; over the
snapshots listed before a snapshot it is the reading of line 139 for that one. -/
def readAfterScan (parse : String → Option Time) (seen : List Image)
    (snapshotInfo : SurfSnapshot) (reads : Nat) : Nat :=
  reads + (matchingTimes parse seen snapshotInfo).length

/-- Retention at the instant `now`: a matching, parseable snapshot older than
`Keep`. -/
def isExpired (parse : String → Option Time) (now : Time) (snapshotInfo : SurfSnapshot)
    (snapshot : Image) : Bool :=
  match createdAt parse snapshotInfo snapshot with
  | some created => decide (snapshotInfo.Keep < timeSub now created)
  | none => false

/-- The deletions of a policy, in snapshot-list order: each matching, parseable
snapshot is judged at its own reading of the clock, the first of them at reading
`reads`. -/
def deletions (parse : String → Option Time) (clock : Nat → Time)
    (snapshotInfo : SurfSnapshot) : List Image → Nat → List Directive
  | [], _ => []
  | snapshot :: rest, reads =>
    match createdAt parse snapshotInfo snapshot with
    | none => deletions parse clock snapshotInfo rest reads
    | some _ =>
      (if isExpired parse (clock reads) snapshotInfo snapshot then
          [Directive.DeleteSnapshot snapshot.ID] else []) ++
        deletions parse clock snapshotInfo rest (reads + 1)

/-- The creation sequence of a policy named at the instant `now`: the creation,
bracketed by power-off and power-on when the policy asks for it. -/
def creationSequence (format : Time → String) (now : Time) (snapshotInfo : SurfSnapshot) :
    List Directive :=
  if snapshotInfo.PowerOff then
    [Directive.PowerOff, Directive.CreateSnapshot (snapshotName format now snapshotInfo),
      Directive.PowerOn]
  else [Directive.CreateSnapshot (snapshotName format now snapshotInfo)]

/-- The directives of the policies one after the other, each at the readings of
its own turn, the first turn entered after `reads` readings. -/
def concatDirectives (parse : String → Option Time) (format : Time → String)
    (clock : Nat → Time) (snapshots : List Image) : List SurfSnapshot → Nat → List Directive
  | [], _ => []
  | snapshotInfo :: rest, reads =>
    policyDirectives parse format clock snapshots reads snapshotInfo ++
      concatDirectives parse format clock snapshots rest
        (readsAfter parse format clock snapshots reads snapshotInfo)

/-- Whether a directive belongs to a creation sequence. -/
def Directive.isCreation : Directive → Bool
  | Directive.PowerOff => true
  | Directive.CreateSnapshot _ => true
  | Directive.PowerOn => true
  | _ => false

/-! ## Sample data -/

/-- The instant 2026-11-04T00:00:00Z: 63929347200 seconds after the zero time. -/
def sampleNow : Time := 63929347200000000000

/-- A clock that shows `start` at the first reading and one second more at each
further reading. -/
def tickingClock (start : Time) (n : Nat) : Time := start + n * second

/-- The ticking clock started at `sampleNow`. -/
def sampleClock : Nat → Time := tickingClock sampleNow

/-- A clock that shows `sampleNow` at the first two readings and one second more at
each further one: the readings of a run whose deletions take a second each and
whose other steps take no time. -/
def slowDeleteClock (n : Nat) : Time :=
  if n ≤ 1 then sampleNow else sampleNow + (n - 1 : Nat) * second

/-- The value of `time.Parse(time.RFC3339, ·)` on the timestamps of the samples;
every other text is taken as unparseable. -/
def sampleParse (s : String) : Option Time :=
  if s = "2026-10-20T00:00:00Z" then some (sampleNow - 15 * day)
  else if s = "2026-10-27T00:00:00Z" then some (sampleNow - 8 * day)
  else if s = "2026-10-28T00:00:00.3Z" then some (sampleNow - 7 * day + 300000000)
  else if s = "2026-10-28T00:00:00.5Z" then some (sampleNow - 7 * day + 500000000)
  else if s = "2026-11-03T22:00:00Z" then some (sampleNow - 2 * hour)
  else if s = "2026-11-04T00:00:00Z" then some sampleNow
  else none

/-- The text `Format(time.RFC3339)` gives in UTC at the first seconds of
2026-11-04, the only instants the samples format. -/
def sampleFormat (t : Time) : String :=
  if t = sampleNow then "2026-11-04T00:00:00Z"
  else if t = sampleNow + 1 * second then "2026-11-04T00:00:01Z"
  else if t = sampleNow + 2 * second then "2026-11-04T00:00:02Z"
  else if t = sampleNow + 3 * second then "2026-11-04T00:00:03Z"
  else "2026-11-04T00:00:04Z"

/-- The policy of the scenarios: one snapshot a day, kept for a week. -/
def dailyPolicy : SurfSnapshot := ⟨24 * hour, 7 * day, "daily", false⟩

/-- A policy that keeps snapshots for a week and asks for a new one every thirty
days. -/
def monthlyPolicy : SurfSnapshot := ⟨30 * day, 7 * day, "daily", false⟩

/-- Three snapshots of label "daily": the first created 0.3 seconds less than 7
days before `sampleNow`, the second 15 days before it, the third 0.5 seconds less
than 7 days before it. -/
def staggeredSnapshots : List Image :=
  [Image.mk 1 "daily-a" "2026-10-28T00:00:00.3Z",
    Image.mk 2 "daily-b" "2026-10-20T00:00:00Z",
    Image.mk 3 "daily-c" "2026-10-28T00:00:00.5Z"]

/-! ## Basic facts -/

theorem timeSub_mono_left {t t' : Time} (u : Time) (h : t ≤ t') :
    timeSub t u ≤ timeSub t' u := by
  unfold timeSub minDuration maxDuration
  simp only [Time, Duration] at *
  split_ifs <;> omega

theorem timeSub_anti_right (t : Time) {u u' : Time} (h : u ≤ u') :
    timeSub t u' ≤ timeSub t u := by
  unfold timeSub minDuration maxDuration
  simp only [Time, Duration] at *
  split_ifs <;> omega

theorem timeSub_valid (t u : Time) : Duration.valid (timeSub t u) := by
  unfold Duration.valid timeSub minDuration maxDuration
  simp only [Time, Duration] at *
  split_ifs <;> omega

/-- Against a duration below the greatest one, the saturated difference compares as
the exact difference does. -/
theorem lt_timeSub_iff {t u : Time} {d : Duration} (hd : Duration.valid d)
    (hlt : d < maxDuration) : d < timeSub t u ↔ d < t - u := by
  unfold Duration.valid minDuration maxDuration at *
  unfold timeSub minDuration maxDuration
  simp only [Time, Duration] at *
  split_ifs <;> omega

theorem timeSub_le_of_le_add {t u : Time} {d : Duration} (hd : Duration.valid d)
    (h : t ≤ u + d) : timeSub t u ≤ d := by
  unfold Duration.valid minDuration maxDuration at hd
  unfold timeSub minDuration maxDuration
  simp only [Time, Duration] at *
  split_ifs <;> omega

theorem timeSub_zeroTime_of_le {now : Time} (h : maxDuration ≤ now) :
    timeSub now zeroTime = maxDuration := by
  unfold timeSub minDuration maxDuration zeroTime at *
  simp only [Time, Duration] at *
  split_ifs <;> omega

/-- Measured from a `now` that is `maxDuration` or more after the zero time, or to a
time not before the zero time, the elapsed time is the same whether or not the
zero time takes part in the maximum. -/
theorem timeSub_max_zeroTime {now latest : Time}
    (hclock : zeroTime ≤ latest ∨ maxDuration ≤ now - zeroTime) :
    timeSub now (max zeroTime latest) = timeSub now latest := by
  rcases le_total zeroTime latest with h | h
  · rw [max_eq_right h]
  · rw [max_eq_left h]
    rcases hclock with h' | h'
    · rw [le_antisymm h h']
    · unfold timeSub minDuration maxDuration zeroTime at *
      simp only [Time, Duration] at *
      split_ifs <;> omega

theorem timeSub_self_sub {now : Time} {d : Duration} (hd : Duration.valid d) :
    timeSub now (now - d) = d := by
  unfold Duration.valid minDuration maxDuration at hd
  unfold timeSub minDuration maxDuration
  simp only [Time, Duration] at *
  split_ifs <;> omega

theorem tickingClock_mono (start : Time) {m n : Nat} (h : m ≤ n) :
    tickingClock start m ≤ tickingClock start n := by
  unfold tickingClock second
  simp only [Time, Duration] at *
  omega

theorem containsChars_iff (s substr : List Char) :
    containsChars s substr = true ↔ substr <:+: s := by
  induction s with
  | nil =>
    unfold containsChars
    cases substr <;> simp [List.isPrefixOf]
  | cons c rest ih =>
    unfold containsChars
    simp only [Bool.or_eq_true, ih, List.isPrefixOf_iff_prefix, List.infix_cons_iff]

theorem Contains_iff (s substr : String) :
    Contains s substr = true ↔ substr.data <:+: s.data :=
  containsChars_iff s.data substr.data

theorem Contains_empty (s : String) : Contains s "" = true := by
  rw [Contains_iff]
  exact List.nil_infix

theorem Contains_append_mid (a b c : String) : Contains (a ++ b ++ c) b = true := by
  rw [Contains_iff]
  exact ⟨a.data, c.data, by simp [String.data_append]⟩

theorem snapshotsInProgress_eq_true {actions : List Action} :
    snapshotsInProgress actions = true ↔
      ∃ action ∈ actions, action.Type_ = "snapshot" ∧ action.Status = "in-progress" := by
  unfold snapshotsInProgress
  simp [List.any_eq_true]

/-! ## The loop over the snapshots -/

theorem latest_step (created l : Time) :
    (if timeAfter created l = true then created else l) = max l created := by
  unfold timeAfter
  simp only [Time, decide_eq_true_eq]
  split_ifs with h
  · exact (max_eq_right (le_of_lt h)).symm
  · exact (max_eq_left (not_lt.mp h)).symm

theorem createdAt_eq_some {parse : String → Option Time} {snapshotInfo : SurfSnapshot}
    {S : Image} {created : Time} :
    createdAt parse snapshotInfo S = some created ↔
      Contains S.Name snapshotInfo.Note = true ∧ parse S.Created = some created := by
  unfold createdAt
  by_cases hc : Contains S.Name snapshotInfo.Note = true
  · rw [if_pos hc]
    simp [hc]
  · rw [if_neg hc]
    simp [hc]

/-- An iteration on a snapshot that does not match or does not parse changes
nothing and reads no clock. -/
theorem scanSnapshot_of_none (parse : String → Option Time) (clock : Nat → Time)
    (snapshotInfo : SurfSnapshot) (st : Scan) (S : Image)
    (h : createdAt parse snapshotInfo S = none) :
    scanSnapshot parse clock snapshotInfo st S = st := by
  unfold scanSnapshot
  unfold createdAt at h
  cases hc : Contains S.Name snapshotInfo.Note with
  | false => simp
  | true =>
    rw [hc, if_pos rfl] at h
    rw [h]
    simp

/-- An iteration on a matching, parseable snapshot reads the clock once and judges
the snapshot at that reading. -/
theorem scanSnapshot_of_some (parse : String → Option Time) (clock : Nat → Time)
    (snapshotInfo : SurfSnapshot) (st : Scan) (S : Image) (created : Time)
    (h : createdAt parse snapshotInfo S = some created) :
    scanSnapshot parse clock snapshotInfo st S =
      ⟨max st.latestSnapshotTime created,
        st.emitted ++ (if isExpired parse (clock st.reads) snapshotInfo S = true then
          [Directive.DeleteSnapshot S.ID] else []),
        st.reads + 1⟩ := by
  obtain ⟨hc, hp⟩ := createdAt_eq_some.mp h
  unfold scanSnapshot isExpired
  rw [h, hc, hp]
  simp only [Bool.not_true, Bool.false_eq_true, if_false, latest_step, decide_eq_true_eq,
    gt_iff_lt]
  split_ifs <;> simp

/-- The loop over the snapshots: the latest time is the running maximum of the
creation times of the matching, parseable snapshots, the directives emitted are
the deletions, and one reading of the clock is made for each such snapshot. -/
theorem scan_foldl (parse : String → Option Time) (clock : Nat → Time)
    (snapshotInfo : SurfSnapshot) (snapshots : List Image) (l : Time) (out : List Directive)
    (reads : Nat) :
    snapshots.foldl (scanSnapshot parse clock snapshotInfo) ⟨l, out, reads⟩ =
      ⟨(matchingTimes parse snapshots snapshotInfo).foldl max l,
        out ++ deletions parse clock snapshotInfo snapshots reads,
        readAfterScan parse snapshots snapshotInfo reads⟩ := by
  induction snapshots generalizing l out reads with
  | nil => simp [matchingTimes, deletions, readAfterScan]
  | cons snapshot rest ih =>
    rw [List.foldl_cons]
    cases hc : createdAt parse snapshotInfo snapshot with
    | none =>
      rw [scanSnapshot_of_none parse clock snapshotInfo _ snapshot hc, ih]
      simp [matchingTimes, readAfterScan, deletions, List.filterMap_cons, hc]
    | some created =>
      rw [scanSnapshot_of_some parse clock snapshotInfo _ snapshot created hc, ih]
      simp [matchingTimes, readAfterScan, deletions, List.filterMap_cons, hc]
      omega

theorem scanSnapshots_eq (parse : String → Option Time) (clock : Nat → Time)
    (snapshots : List Image) (snapshotInfo : SurfSnapshot) (run : Run) :
    scanSnapshots parse clock snapshots snapshotInfo run =
      ⟨(matchingTimes parse snapshots snapshotInfo).foldl max zeroTime,
        run.emitted ++ deletions parse clock snapshotInfo snapshots run.reads,
        readAfterScan parse snapshots snapshotInfo run.reads⟩ :=
  scan_foldl parse clock snapshotInfo snapshots zeroTime run.emitted run.reads

theorem latestSnapshotTime_eq (parse : String → Option Time) (clock : Nat → Time)
    (snapshots : List Image) (snapshotInfo : SurfSnapshot) :
    latestSnapshotTime parse clock snapshots snapshotInfo =
      (matchingTimes parse snapshots snapshotInfo).foldl max zeroTime := by
  unfold latestSnapshotTime
  rw [scanSnapshots_eq]

/-- The latest snapshot time depends neither on the clock nor on what was emitted
before. -/
theorem scan_latest (parse : String → Option Time) (clock : Nat → Time)
    (snapshots : List Image) (snapshotInfo : SurfSnapshot) (run : Run) :
    (scanSnapshots parse clock snapshots snapshotInfo run).latestSnapshotTime =
      latestSnapshotTime parse clock snapshots snapshotInfo := by
  rw [latestSnapshotTime_eq, scanSnapshots_eq]

/-- One iteration of the loop over the policies appends the deletions of the
policy and then, when at the reading of line 152 the latest snapshot is older
than the interval, its creation sequence, named at the next reading. -/
theorem evalPolicy_eq (parse : String → Option Time) (format : Time → String)
    (clock : Nat → Time) (snapshots : List Image) (run : Run) (snapshotInfo : SurfSnapshot) :
    evalPolicy parse format clock snapshots run snapshotInfo =
      if snapshotInfo.Interval <
          timeSub (clock (readAfterScan parse snapshots snapshotInfo run.reads))
            (latestSnapshotTime parse clock snapshots snapshotInfo) then
        ⟨run.emitted ++ (deletions parse clock snapshotInfo snapshots run.reads ++
            creationSequence format
              (clock (readAfterScan parse snapshots snapshotInfo run.reads + 1)) snapshotInfo),
          readAfterScan parse snapshots snapshotInfo run.reads + 2⟩
      else
        ⟨run.emitted ++ deletions parse clock snapshotInfo snapshots run.reads,
          readAfterScan parse snapshots snapshotInfo run.reads + 1⟩ := by
  unfold evalPolicy
  simp only [scan_latest, gt_iff_lt]
  rw [scanSnapshots_eq]
  unfold creationSequence
  cases snapshotInfo.PowerOff <;> split_ifs <;> simp

theorem policyDirectives_eq (parse : String → Option Time) (format : Time → String)
    (clock : Nat → Time) (snapshots : List Image) (reads : Nat) (snapshotInfo : SurfSnapshot) :
    policyDirectives parse format clock snapshots reads snapshotInfo =
      deletions parse clock snapshotInfo snapshots reads ++
        if snapshotInfo.Interval <
            timeSub (clock (readAfterScan parse snapshots snapshotInfo reads))
              (latestSnapshotTime parse clock snapshots snapshotInfo) then
          creationSequence format
            (clock (readAfterScan parse snapshots snapshotInfo reads + 1)) snapshotInfo
        else [] := by
  unfold policyDirectives
  rw [evalPolicy_eq]
  split_ifs <;> simp

/-- An iteration of the loop over the policies appends the directives of the policy
to what was emitted, and reads the clock as often as on its own. -/
theorem evalPolicy_run (parse : String → Option Time) (format : Time → String)
    (clock : Nat → Time) (snapshots : List Image) (run : Run) (snapshotInfo : SurfSnapshot) :
    evalPolicy parse format clock snapshots run snapshotInfo =
      ⟨run.emitted ++ policyDirectives parse format clock snapshots run.reads snapshotInfo,
        readsAfter parse format clock snapshots run.reads snapshotInfo⟩ := by
  unfold policyDirectives readsAfter
  rw [evalPolicy_eq, evalPolicy_eq]
  split_ifs <;> simp

theorem foldl_evalPolicy (parse : String → Option Time) (format : Time → String)
    (clock : Nat → Time) (snapshots : List Image) (policies : List SurfSnapshot) (run : Run) :
    (policies.foldl (evalPolicy parse format clock snapshots) run).emitted =
      run.emitted ++ concatDirectives parse format clock snapshots policies run.reads := by
  induction policies generalizing run with
  | nil => simp [concatDirectives]
  | cons snapshotInfo rest ih =>
    rw [List.foldl_cons, ih, evalPolicy_run]
    simp [concatDirectives]

/-- Without a snapshot in progress the output is the concatenation of the
directives of each policy, in the order of the policies. -/
theorem evaluate_of_idle (parse : String → Option Time) (format : Time → String)
    (clock : Nat → Time) (dropletName : String) (policies : List SurfSnapshot)
    (snapshots : List Image) (actions : List Action)
    (hidle : snapshotsInProgress actions = false) :
    evaluate parse format clock dropletName policies snapshots actions =
      concatDirectives parse format clock snapshots policies 0 := by
  unfold evaluate
  rw [hidle, foldl_evalPolicy]
  simp

/-- The directives of a policy, at the readings of its turn, stand in the output
as one contiguous part. -/
theorem policyDirectives_infix_evaluate (parse : String → Option Time) (format : Time → String)
    (clock : Nat → Time) (dropletName : String) (earlier later : List SurfSnapshot)
    (snapshots : List Image) (actions : List Action)
    (hidle : snapshotsInProgress actions = false) (snapshotInfo : SurfSnapshot) :
    policyDirectives parse format clock snapshots
        (readsBefore parse format clock snapshots earlier) snapshotInfo <:+:
      evaluate parse format clock dropletName (earlier ++ snapshotInfo :: later) snapshots
        actions := by
  unfold evaluate readsBefore
  rw [hidle, List.foldl_append, List.foldl_cons, foldl_evalPolicy, evalPolicy_run]
  simp only [Bool.false_eq_true, if_false]
  exact ⟨(earlier.foldl (evalPolicy parse format clock snapshots) ⟨[], 0⟩).emitted,
    concatDirectives parse format clock snapshots later _, rfl⟩

/-! ## Membership in the output of a policy -/

theorem mem_matchingTimes {parse : String → Option Time} {snapshots : List Image}
    {snapshotInfo : SurfSnapshot} {t : Time} :
    t ∈ matchingTimes parse snapshots snapshotInfo ↔
      ∃ S ∈ snapshots, Contains S.Name snapshotInfo.Note = true ∧ parse S.Created = some t := by
  unfold matchingTimes
  rw [List.mem_filterMap]
  constructor
  · rintro ⟨S, hS, h⟩
    exact ⟨S, hS, createdAt_eq_some.mp h⟩
  · rintro ⟨S, hS, hc, h⟩
    exact ⟨S, hS, createdAt_eq_some.mpr ⟨hc, h⟩⟩

theorem isExpired_iff {parse : String → Option Time} {now : Time} {snapshotInfo : SurfSnapshot}
    {S : Image} :
    isExpired parse now snapshotInfo S = true ↔
      Contains S.Name snapshotInfo.Note = true ∧
        ∃ created, parse S.Created = some created ∧ snapshotInfo.Keep < timeSub now created := by
  unfold isExpired createdAt
  by_cases hc : Contains S.Name snapshotInfo.Note = true
  · rw [if_pos hc]
    cases hp : parse S.Created with
    | none => simp [hc]
    | some created => simp [hc]
  · rw [if_neg hc]
    simp [hc]

theorem readAfterScan_append (parse : String → Option Time) (pre post : List Image)
    (snapshotInfo : SurfSnapshot) (reads : Nat) :
    readAfterScan parse (pre ++ post) snapshotInfo reads =
      readAfterScan parse post snapshotInfo (readAfterScan parse pre snapshotInfo reads) := by
  unfold readAfterScan matchingTimes
  rw [List.filterMap_append, List.length_append]
  omega

theorem le_readAfterScan (parse : String → Option Time) (seen : List Image)
    (snapshotInfo : SurfSnapshot) (reads : Nat) :
    reads ≤ readAfterScan parse seen snapshotInfo reads := by
  unfold readAfterScan
  omega

theorem readAfterScan_cons_of_some {parse : String → Option Time} {snapshotInfo : SurfSnapshot}
    {S : Image} {created : Time} (h : createdAt parse snapshotInfo S = some created)
    (rest : List Image) (reads : Nat) :
    readAfterScan parse (S :: rest) snapshotInfo reads =
      readAfterScan parse rest snapshotInfo (reads + 1) := by
  unfold readAfterScan matchingTimes
  rw [List.filterMap_cons, h, List.length_cons]
  omega

theorem readAfterScan_cons_of_none {parse : String → Option Time} {snapshotInfo : SurfSnapshot}
    {S : Image} (h : createdAt parse snapshotInfo S = none) (rest : List Image) (reads : Nat) :
    readAfterScan parse (S :: rest) snapshotInfo reads =
      readAfterScan parse rest snapshotInfo reads := by
  unfold readAfterScan matchingTimes
  rw [List.filterMap_cons, h]

theorem deletions_cons_of_some {parse : String → Option Time} (clock : Nat → Time)
    {snapshotInfo : SurfSnapshot} {S : Image} {created : Time}
    (h : createdAt parse snapshotInfo S = some created) (rest : List Image) (reads : Nat) :
    deletions parse clock snapshotInfo (S :: rest) reads =
      (if isExpired parse (clock reads) snapshotInfo S = true then
          [Directive.DeleteSnapshot S.ID] else []) ++
        deletions parse clock snapshotInfo rest (reads + 1) := by
  rw [deletions, h]

theorem deletions_cons_of_none {parse : String → Option Time} (clock : Nat → Time)
    {snapshotInfo : SurfSnapshot} {S : Image}
    (h : createdAt parse snapshotInfo S = none) (rest : List Image) (reads : Nat) :
    deletions parse clock snapshotInfo (S :: rest) reads =
      deletions parse clock snapshotInfo rest reads := by
  rw [deletions, h]

theorem deletions_append (parse : String → Option Time) (clock : Nat → Time)
    (snapshotInfo : SurfSnapshot) (pre post : List Image) (reads : Nat) :
    deletions parse clock snapshotInfo (pre ++ post) reads =
      deletions parse clock snapshotInfo pre reads ++
        deletions parse clock snapshotInfo post (readAfterScan parse pre snapshotInfo reads) := by
  induction pre generalizing reads with
  | nil => simp [deletions, readAfterScan, matchingTimes]
  | cons S rest ih =>
    rw [List.cons_append]
    cases hc : createdAt parse snapshotInfo S with
    | none =>
      rw [deletions_cons_of_none clock hc, deletions_cons_of_none clock hc, ih,
        readAfterScan_cons_of_none hc]
    | some created =>
      rw [deletions_cons_of_some clock hc, deletions_cons_of_some clock hc, ih,
        readAfterScan_cons_of_some hc, List.append_assoc]

/-- Every deletion of a policy is that of a listed snapshot, expired at one of the
readings of the loop over the snapshots. -/
theorem mem_deletions_exists {parse : String → Option Time} {clock : Nat → Time}
    {snapshotInfo : SurfSnapshot} {snapshots : List Image} {reads : Nat} {d : Directive}
    (h : d ∈ deletions parse clock snapshotInfo snapshots reads) :
    ∃ S ∈ snapshots, ∃ n, reads ≤ n ∧ n < readAfterScan parse snapshots snapshotInfo reads ∧
      isExpired parse (clock n) snapshotInfo S = true ∧ d = Directive.DeleteSnapshot S.ID := by
  induction snapshots generalizing reads with
  | nil => simp [deletions] at h
  | cons S rest ih =>
    cases hc : createdAt parse snapshotInfo S with
    | none =>
      rw [deletions_cons_of_none clock hc] at h
      obtain ⟨S', hS', n, hn1, hn2, he, hd⟩ := ih h
      exact ⟨S', List.mem_cons_of_mem S hS', n, hn1,
        by rw [readAfterScan_cons_of_none hc]; exact hn2, he, hd⟩
    | some created =>
      rw [deletions_cons_of_some clock hc, List.mem_append] at h
      rcases h with h | h
      · split_ifs at h with he
        · exact ⟨S, List.mem_cons_self S rest, reads, le_refl _,
            by
              rw [readAfterScan_cons_of_some hc]
              exact lt_of_lt_of_le (Nat.lt_succ_self reads) (le_readAfterScan _ _ _ _),
            he, List.mem_singleton.mp h⟩
        · cases h
      · obtain ⟨S', hS', n, hn1, hn2, he, hd⟩ := ih h
        exact ⟨S', List.mem_cons_of_mem S hS', n, by omega,
          by rw [readAfterScan_cons_of_some hc]; exact hn2, he, hd⟩

/-- The deletions of a policy follow the order of the snapshot list. -/
theorem deletions_sublist (parse : String → Option Time) (clock : Nat → Time)
    (snapshotInfo : SurfSnapshot) (snapshots : List Image) (reads : Nat) :
    ∃ expired : List Image, expired.Sublist snapshots ∧
      deletions parse clock snapshotInfo snapshots reads =
        expired.map (fun S => Directive.DeleteSnapshot S.ID) := by
  induction snapshots generalizing reads with
  | nil => exact ⟨[], List.Sublist.refl _, rfl⟩
  | cons S rest ih =>
    cases hc : createdAt parse snapshotInfo S with
    | none =>
      obtain ⟨expired, hsub, heq⟩ := ih reads
      exact ⟨expired, hsub.cons S, by rw [deletions_cons_of_none clock hc, heq]⟩
    | some created =>
      obtain ⟨expired, hsub, heq⟩ := ih (reads + 1)
      rw [deletions_cons_of_some clock hc, heq]
      by_cases he : isExpired parse (clock reads) snapshotInfo S = true
      · exact ⟨S :: expired, hsub.cons₂ S, by rw [if_pos he]; rfl⟩
      · exact ⟨expired, hsub.cons S, by rw [if_neg he]; rfl⟩

/-- A snapshot expired at the reading of its own iteration is deleted. -/
theorem delete_mem_deletions {parse : String → Option Time} {clock : Nat → Time}
    {snapshotInfo : SurfSnapshot} (pre post : List Image) {S : Image} {reads : Nat}
    (he : isExpired parse (clock (readAfterScan parse pre snapshotInfo reads)) snapshotInfo S =
      true) :
    Directive.DeleteSnapshot S.ID ∈
      deletions parse clock snapshotInfo (pre ++ S :: post) reads := by
  obtain ⟨hname, created, hparse, -⟩ := isExpired_iff.mp he
  rw [deletions_append, deletions_cons_of_some clock (createdAt_eq_some.mpr ⟨hname, hparse⟩),
    if_pos he]
  simp

theorem isCreation_of_mem_creationSequence {format : Time → String} {now : Time}
    {snapshotInfo : SurfSnapshot} {d : Directive}
    (h : d ∈ creationSequence format now snapshotInfo) : d.isCreation = true := by
  unfold creationSequence at h
  split_ifs at h
  · simp only [List.mem_cons, List.mem_singleton, List.not_mem_nil, or_false] at h
    rcases h with rfl | rfl | rfl <;> rfl
  · simp only [List.mem_singleton] at h
    subst h
    rfl

theorem not_isCreation_of_mem_deletions {parse : String → Option Time} {clock : Nat → Time}
    {snapshots : List Image} {snapshotInfo : SurfSnapshot} {reads : Nat} {d : Directive}
    (h : d ∈ deletions parse clock snapshotInfo snapshots reads) : d.isCreation = false := by
  obtain ⟨S, -, n, -, -, -, rfl⟩ := mem_deletions_exists h
  rfl

/-- A deletion in the output of a policy comes from the retention pass. -/
theorem delete_mem_policyDirectives {parse : String → Option Time} {format : Time → String}
    {clock : Nat → Time} {snapshots : List Image} {reads : Nat} {snapshotInfo : SurfSnapshot}
    {id : Int} :
    Directive.DeleteSnapshot id ∈
        policyDirectives parse format clock snapshots reads snapshotInfo ↔
      Directive.DeleteSnapshot id ∈ deletions parse clock snapshotInfo snapshots reads := by
  rw [policyDirectives_eq, List.mem_append]
  constructor
  · rintro (h | h)
    · exact h
    · split_ifs at h
      · have := isCreation_of_mem_creationSequence h
        simp [Directive.isCreation] at this
      · cases h
  · intro h
    exact Or.inl h

/-- A creation directive is in the output of a policy exactly when, at the reading
of line 152, the latest snapshot is older than the interval. -/
theorem isCreation_mem_policyDirectives {parse : String → Option Time} {format : Time → String}
    {clock : Nat → Time} {snapshots : List Image} {reads : Nat} {snapshotInfo : SurfSnapshot}
    {d : Directive} (hd : d.isCreation = true) :
    d ∈ policyDirectives parse format clock snapshots reads snapshotInfo ↔
      snapshotInfo.Interval <
          timeSub (clock (readAfterScan parse snapshots snapshotInfo reads))
            (latestSnapshotTime parse clock snapshots snapshotInfo) ∧
        d ∈ creationSequence format
          (clock (readAfterScan parse snapshots snapshotInfo reads + 1)) snapshotInfo := by
  rw [policyDirectives_eq, List.mem_append]
  constructor
  · rintro (h | h)
    · rw [not_isCreation_of_mem_deletions h] at hd
      cases hd
    · split_ifs at h with hdue
      · exact ⟨hdue, h⟩
      · cases h
  · rintro ⟨hdue, h⟩
    right
    rw [if_pos hdue]
    exact h

theorem create_mem_creationSequence (format : Time → String) (now : Time)
    (snapshotInfo : SurfSnapshot) :
    Directive.CreateSnapshot (snapshotName format now snapshotInfo) ∈
      creationSequence format now snapshotInfo := by
  unfold creationSequence
  split_ifs <;> simp

/-! ## The latest snapshot time -/

theorem le_foldl_max (times : List Time) (z : Time) : z ≤ times.foldl max z := by
  induction times generalizing z with
  | nil => exact le_refl z
  | cons t rest ih => exact le_trans (le_max_left z t) (ih (max z t))

theorem le_foldl_max_of_mem (times : List Time) (z : Time) {t : Time} (h : t ∈ times) :
    t ≤ times.foldl max z := by
  induction times generalizing z with
  | nil => cases h
  | cons t' rest ih =>
    rcases List.mem_cons.mp h with rfl | h
    · exact le_trans (le_max_right z t) (le_foldl_max rest (max z t))
    · exact ih (max z t') h

theorem foldl_max_eq_or_mem (times : List Time) (z : Time) :
    times.foldl max z = z ∨ times.foldl max z ∈ times := by
  induction times generalizing z with
  | nil => exact Or.inl rfl
  | cons t rest ih =>
    rw [List.foldl_cons]
    rcases ih (max z t) with h | h
    · rw [h]
      rcases max_choice z t with hz | ht
      · exact Or.inl hz
      · exact Or.inr (by rw [ht]; exact List.mem_cons_self t rest)
    · exact Or.inr (List.mem_cons_of_mem t h)

/-- The latest snapshot time is the greater of the zero time and the greatest
creation time among the matching, parseable snapshots. -/
theorem latestSnapshotTime_eq_max {parse : String → Option Time} {clock : Nat → Time}
    {snapshots : List Image} {snapshotInfo : SurfSnapshot} {M : Time}
    (hM : M ∈ matchingTimes parse snapshots snapshotInfo)
    (hmax : ∀ t ∈ matchingTimes parse snapshots snapshotInfo, t ≤ M) :
    latestSnapshotTime parse clock snapshots snapshotInfo = max zeroTime M := by
  rw [latestSnapshotTime_eq]
  apply le_antisymm
  · rcases foldl_max_eq_or_mem (matchingTimes parse snapshots snapshotInfo) zeroTime with h | h
    · rw [h]
      exact le_max_left _ _
    · exact le_trans (hmax _ h) (le_max_right _ _)
  · exact max_le (le_foldl_max _ _) (le_foldl_max_of_mem _ _ hM)

theorem le_latestSnapshotTime {parse : String → Option Time} {clock : Nat → Time}
    {snapshots : List Image} {snapshotInfo : SurfSnapshot} {S : Image} {created : Time}
    (hS : S ∈ snapshots) (hname : Contains S.Name snapshotInfo.Note = true)
    (hparse : parse S.Created = some created) :
    created ≤ latestSnapshotTime parse clock snapshots snapshotInfo := by
  rw [latestSnapshotTime_eq]
  exact le_foldl_max_of_mem _ _ (mem_matchingTimes.mpr ⟨S, hS, hname, hparse⟩)

theorem matchingTimes_eq_nil {parse : String → Option Time} {snapshots : List Image}
    {snapshotInfo : SurfSnapshot}
    (hnone : ∀ S ∈ snapshots, Contains S.Name snapshotInfo.Note = false) :
    matchingTimes parse snapshots snapshotInfo = [] := by
  rw [List.eq_nil_iff_forall_not_mem]
  intro t ht
  obtain ⟨S, hS, hc, -⟩ := mem_matchingTimes.mp ht
  rw [hnone S hS] at hc
  cases hc

theorem deletions_eq_nil {parse : String → Option Time} {clock : Nat → Time}
    {snapshots : List Image} {snapshotInfo : SurfSnapshot} {reads : Nat}
    (hnone : ∀ S ∈ snapshots, Contains S.Name snapshotInfo.Note = false) :
    deletions parse clock snapshotInfo snapshots reads = [] := by
  rw [List.eq_nil_iff_forall_not_mem]
  intro d hd
  obtain ⟨S, hS, n, -, -, he, -⟩ := mem_deletions_exists hd
  obtain ⟨hc, -⟩ := isExpired_iff.mp he
  rw [hnone S hS] at hc
  cases hc

/-- With no matching snapshot the policy reads the clock first at line 152 and
creates exactly when the saturated time elapsed since the zero time exceeds the
interval. -/
theorem policyDirectives_of_no_match {parse : String → Option Time} {format : Time → String}
    {clock : Nat → Time} {snapshots : List Image} {reads : Nat} {snapshotInfo : SurfSnapshot}
    (hnone : ∀ S ∈ snapshots, Contains S.Name snapshotInfo.Note = false) :
    policyDirectives parse format clock snapshots reads snapshotInfo =
      if snapshotInfo.Interval < timeSub (clock reads) zeroTime then
        creationSequence format (clock (reads + 1)) snapshotInfo else [] := by
  rw [policyDirectives_eq, deletions_eq_nil hnone, latestSnapshotTime_eq]
  unfold readAfterScan
  rw [matchingTimes_eq_nil hnone]
  rfl

/-! ## Unparseable snapshots -/

theorem scanSnapshot_of_unparseable (parse : String → Option Time) (clock : Nat → Time)
    (snapshotInfo : SurfSnapshot) (st : Scan) (S : Image) (h : parse S.Created = none) :
    scanSnapshot parse clock snapshotInfo st S = st := by
  unfold scanSnapshot
  rw [h]
  split_ifs <;> rfl

theorem foldl_scanSnapshot_filter (parse : String → Option Time) (clock : Nat → Time)
    (snapshotInfo : SurfSnapshot) (snapshots : List Image) (st : Scan) :
    (snapshots.filter (fun S => (parse S.Created).isSome)).foldl
        (scanSnapshot parse clock snapshotInfo) st =
      snapshots.foldl (scanSnapshot parse clock snapshotInfo) st := by
  induction snapshots generalizing st with
  | nil => rfl
  | cons S rest ih =>
    rw [List.filter_cons, List.foldl_cons]
    cases hp : parse S.Created with
    | none =>
      rw [scanSnapshot_of_unparseable parse clock snapshotInfo st S hp]
      simpa using ih st
    | some created =>
      simpa using ih _

theorem evalPolicy_filter (parse : String → Option Time) (format : Time → String)
    (clock : Nat → Time) (snapshots : List Image) (run : Run) (snapshotInfo : SurfSnapshot) :
    evalPolicy parse format clock (snapshots.filter (fun S => (parse S.Created).isSome)) run
        snapshotInfo =
      evalPolicy parse format clock snapshots run snapshotInfo := by
  unfold evalPolicy scanSnapshots
  rw [foldl_scanSnapshot_filter]

/-! ## Two policies of one list -/

theorem exists_split_of_getElem? {α : Type} (l : List α) (i j : Nat) (a b : α) (hij : i < j)
    (hi : l[i]? = some a) (hj : l[j]? = some b) :
    ∃ l1 l2 l3, l = l1 ++ a :: (l2 ++ b :: l3) := by
  induction l generalizing i j with
  | nil => simp at hi
  | cons x xs ih =>
    cases j with
    | zero => omega
    | succ j =>
      rw [List.getElem?_cons_succ] at hj
      cases i with
      | zero =>
        rw [List.getElem?_cons_zero] at hi
        injection hi with hi
        obtain ⟨l2, l3, rfl⟩ := List.append_of_mem (List.getElem?_mem hj)
        exact ⟨[], l2, l3, by rw [hi]; rfl⟩
      | succ i =>
        rw [List.getElem?_cons_succ] at hi
        obtain ⟨l1, l2, l3, rfl⟩ := ih i j (by omega) hi hj
        exact ⟨x :: l1, l2, l3, rfl⟩

theorem one_le_count_concatDirectives (parse : String → Option Time) (format : Time → String)
    (clock : Nat → Time) (snapshots : List Image) (d : Directive) (a : SurfSnapshot)
    (ha : ∀ reads, d ∈ policyDirectives parse format clock snapshots reads a)
    (l : List SurfSnapshot) (hmem : a ∈ l) (reads : Nat) :
    1 ≤ (concatDirectives parse format clock snapshots l reads).count d := by
  induction l generalizing reads with
  | nil => cases hmem
  | cons x xs ih =>
    rw [concatDirectives, List.count_append]
    rcases List.mem_cons.mp hmem with rfl | h
    · have := List.one_le_count_iff.mpr (ha reads)
      omega
    · have := ih h (readsAfter parse format clock snapshots reads x)
      omega

theorem two_le_count_concatDirectives (parse : String → Option Time) (format : Time → String)
    (clock : Nat → Time) (snapshots : List Image) (d : Directive) (a b : SurfSnapshot)
    (ha : ∀ reads, d ∈ policyDirectives parse format clock snapshots reads a)
    (hb : ∀ reads, d ∈ policyDirectives parse format clock snapshots reads b)
    (l : List SurfSnapshot) (i j : Nat) (hij : i ≠ j) (hi : l[i]? = some a)
    (hj : l[j]? = some b) (reads : Nat) :
    2 ≤ (concatDirectives parse format clock snapshots l reads).count d := by
  have key : ∀ (x y : SurfSnapshot),
      (∀ reads, d ∈ policyDirectives parse format clock snapshots reads x) →
      (∀ reads, d ∈ policyDirectives parse format clock snapshots reads y) →
      ∀ (l1 rest : List SurfSnapshot), y ∈ rest → ∀ reads,
        2 ≤ (concatDirectives parse format clock snapshots (l1 ++ x :: rest) reads).count d := by
    intro x y hx hy l1 rest hmem
    induction l1 with
    | nil =>
      intro reads
      rw [List.nil_append, concatDirectives, List.count_append]
      have h1 := List.one_le_count_iff.mpr (hx reads)
      have h2 := one_le_count_concatDirectives parse format clock snapshots d y hy rest hmem
        (readsAfter parse format clock snapshots reads x)
      omega
    | cons z zs ih =>
      intro reads
      rw [List.cons_append, concatDirectives, List.count_append]
      have := ih (readsAfter parse format clock snapshots reads z)
      omega
  rcases Nat.lt_or_gt_of_ne hij with h | h
  · obtain ⟨l1, l2, l3, rfl⟩ := exists_split_of_getElem? l i j a b h hi hj
    exact key a b ha hb l1 (l2 ++ b :: l3) (by simp) reads
  · obtain ⟨l1, l2, l3, rfl⟩ := exists_split_of_getElem? l j i b a h hj hi
    exact key b a hb ha l1 (l2 ++ a :: l3) (by simp) reads

/-! ## The claims -/

/-- C1, guard precedence: for a droplet with an action of type "snapshot" and
status "in-progress", whatever the policies, the snapshots and the clock,
`evaluate` returns exactly one `SkipInstance` directive and nothing else. -/
theorem guard_precedence (parse : String → Option Time) (format : Time → String)
    (clock : Nat → Time) (dropletName : String) (policies : List SurfSnapshot)
    (snapshots : List Image) (actions : List Action)
    (hbusy : ∃ action ∈ actions, action.Type_ = "snapshot" ∧ action.Status = "in-progress") :
    evaluate parse format clock dropletName policies snapshots actions =
      [Directive.SkipInstance (skipReason dropletName)] := by
  unfold evaluate
  rw [snapshotsInProgress_eq_true.mpr hbusy]
  rfl

/-- A droplet with a finished resize and a running snapshot is skipped. -/
theorem guard_precedence_witness :
    (∃ action ∈ [Action.mk "resize" "completed", Action.mk "snapshot" "in-progress"],
        action.Type_ = "snapshot" ∧ action.Status = "in-progress") ∧
      evaluate sampleParse sampleFormat sampleClock "web-1" [dailyPolicy]
          [Image.mk 1 "daily-snap" "2026-10-27T00:00:00Z"]
          [Action.mk "resize" "completed", Action.mk "snapshot" "in-progress"] =
        [Directive.SkipInstance (skipReason "web-1")] :=
  ⟨⟨Action.mk "snapshot" "in-progress", by decide, rfl, rfl⟩,
    guard_precedence sampleParse sampleFormat sampleClock "web-1" [dailyPolicy]
      [Image.mk 1 "daily-snap" "2026-10-27T00:00:00Z"]
      [Action.mk "resize" "completed", Action.mk "snapshot" "in-progress"]
      ⟨Action.mk "snapshot" "in-progress", by decide, rfl, rfl⟩⟩

/-- C2, counterexample: with a retention of 7 days and a clock that advances by a
second while a snapshot is deleted, the snapshot created 0.3 seconds less than 7
days before the first reading is kept and the one created 0.2 seconds after it is
deleted, being judged a second later; so for no single `now` is each of the two
deleted exactly when `now` minus its creation time exceeds the retention. -/
theorem retention_counterexample :
    sampleParse "2026-10-28T00:00:00.3Z" = some (sampleNow - 7 * day + 300000000) ∧
      sampleParse "2026-10-28T00:00:00.5Z" = some (sampleNow - 7 * day + 500000000) ∧
      evaluate sampleParse sampleFormat slowDeleteClock "web-1" [monthlyPolicy]
          staggeredSnapshots [] =
        [Directive.DeleteSnapshot 2, Directive.DeleteSnapshot 3] ∧
      ¬ ∃ now : Time,
        (Directive.DeleteSnapshot 1 ∈
            evaluate sampleParse sampleFormat slowDeleteClock "web-1" [monthlyPolicy]
              staggeredSnapshots [] ↔
          monthlyPolicy.Keep < timeSub now (sampleNow - 7 * day + 300000000)) ∧
        (Directive.DeleteSnapshot 3 ∈
            evaluate sampleParse sampleFormat slowDeleteClock "web-1" [monthlyPolicy]
              staggeredSnapshots [] ↔
          monthlyPolicy.Keep < timeSub now (sampleNow - 7 * day + 500000000)) := by
  have hout : evaluate sampleParse sampleFormat slowDeleteClock "web-1" [monthlyPolicy]
      staggeredSnapshots [] = [Directive.DeleteSnapshot 2, Directive.DeleteSnapshot 3] := by
    decide
  refine ⟨by decide, by decide, hout, ?_⟩
  rintro ⟨now, h1, h3⟩
  rw [hout] at h1 h3
  have hyoung : monthlyPolicy.Keep < timeSub now (sampleNow - 7 * day + 500000000) :=
    h3.mp (by decide)
  have hold : ¬ monthlyPolicy.Keep < timeSub now (sampleNow - 7 * day + 300000000) :=
    fun h => absurd (h1.mpr h) (by decide)
  have hle : timeSub now (sampleNow - 7 * day + 500000000) ≤
      timeSub now (sampleNow - 7 * day + 300000000) :=
    timeSub_anti_right now (by decide)
  exact hold (lt_of_lt_of_le hyoung hle)

/-- C2, as amended: without a snapshot in progress, for a policy `P` of the list and a
snapshot `S` of the list whose name contains the label of `P`, whose timestamp parses
to `created` and whose ID no other listed snapshot carries, the directives of `P`
(a contiguous part of the output) contain `DeleteSnapshot S.ID` if and only if the
reading of the clock taken for `S` at line 139, minus `created`, is strictly greater
than `P.Keep`. That reading is the one made after the readings of the earlier
policies and one reading for each matching, parseable snapshot listed before `S`. -/
theorem retention_correct (parse : String → Option Time) (format : Time → String)
    (clock : Nat → Time) (dropletName : String) (earlier later : List SurfSnapshot)
    (pre post : List Image) (actions : List Action)
    (hidle : snapshotsInProgress actions = false) (P : SurfSnapshot) (S : Image)
    (hname : Contains S.Name P.Note = true) (created : Time)
    (hparse : parse S.Created = some created)
    (hid : ∀ S' ∈ pre ++ post, S'.ID ≠ S.ID) (reads : Nat)
    (hreads : reads = readsBefore parse format clock (pre ++ S :: post) earlier) :
    (Directive.DeleteSnapshot S.ID ∈
          policyDirectives parse format clock (pre ++ S :: post) reads P ↔
        P.Keep < timeSub (clock (readAfterScan parse pre P reads)) created) ∧
      policyDirectives parse format clock (pre ++ S :: post) reads P <:+:
        evaluate parse format clock dropletName (earlier ++ P :: later) (pre ++ S :: post)
          actions := by
  refine ⟨?_, by
    rw [hreads]
    exact policyDirectives_infix_evaluate parse format clock dropletName earlier later
      (pre ++ S :: post) actions hidle P⟩
  have hother : ∀ (l : List Image) (r : Nat), (∀ S' ∈ l, S'.ID ≠ S.ID) →
      Directive.DeleteSnapshot S.ID ∉ deletions parse clock P l r := by
    intro l r hl hmem
    obtain ⟨S', hS', n, -, -, -, hd⟩ := mem_deletions_exists hmem
    injection hd with hd
    exact hl S' hS' hd.symm
  have hexp : isExpired parse (clock (readAfterScan parse pre P reads)) P S = true ↔
      P.Keep < timeSub (clock (readAfterScan parse pre P reads)) created := by
    rw [isExpired_iff]
    constructor
    · rintro ⟨-, c, hc, hlt⟩
      rw [hparse] at hc
      injection hc with hc
      rw [hc]
      exact hlt
    · intro hlt
      exact ⟨hname, created, hparse, hlt⟩
  rw [delete_mem_policyDirectives, ← hexp]
  constructor
  · intro hmem
    rw [deletions_append,
      deletions_cons_of_some clock (createdAt_eq_some.mpr ⟨hname, hparse⟩)] at hmem
    rcases List.mem_append.mp hmem with h | h
    · exact absurd h (hother pre reads (fun S' hS' => hid S' (List.mem_append_left post hS')))
    · rcases List.mem_append.mp h with h | h
      · split_ifs at h with he
        · exact he
        · cases h
      · exact absurd h (hother post _ (fun S' hS' => hid S' (List.mem_append_right pre hS')))
  · intro he
    exact delete_mem_deletions pre post he

/-- The staggered snapshots under the slow clock: the third snapshot, judged at the
third reading, a second after the first, is deleted. -/
theorem retention_correct_witness :
    (Directive.DeleteSnapshot 3 ∈
          policyDirectives sampleParse sampleFormat slowDeleteClock staggeredSnapshots 0
            monthlyPolicy ↔
        monthlyPolicy.Keep <
          timeSub (slowDeleteClock 2) (sampleNow - 7 * day + 500000000)) ∧
      policyDirectives sampleParse sampleFormat slowDeleteClock staggeredSnapshots 0
          monthlyPolicy <:+:
        evaluate sampleParse sampleFormat slowDeleteClock "web-1" [monthlyPolicy]
          staggeredSnapshots [] :=
  retention_correct sampleParse sampleFormat slowDeleteClock "web-1" [] []
    [Image.mk 1 "daily-a" "2026-10-28T00:00:00.3Z", Image.mk 2 "daily-b" "2026-10-20T00:00:00Z"]
    [] [] rfl monthlyPolicy (Image.mk 3 "daily-c" "2026-10-28T00:00:00.5Z") (by decide)
    (sampleNow - 7 * day + 500000000) (by decide) (by decide) 0 rfl

/-- C3, counterexample: a policy whose interval is the greatest duration, on a
droplet with no snapshot and no action, gets no creation sequence: the elapsed time
since the zero time saturates at that same duration, which is not greater. -/
theorem never_snapshotted_counterexample :
    Duration.valid maxDuration ∧ snapshotsInProgress [] = false ∧
      timeSub (sampleClock 0) zeroTime = maxDuration ∧
      evaluate sampleParse sampleFormat sampleClock "web-1"
        [SurfSnapshot.mk maxDuration (7 * day) "daily" true] [] [] = [] := by
  decide

/-- C3, as amended: without a snapshot in progress, for a policy of the list none of
whose snapshots carries its label, when the reading of the clock for the interval
test (line 152) is at least the greatest duration after the zero time, for every
interval strictly below the greatest duration, the directives of the policy are
exactly its creation sequence, named at the next reading, and it stands in the
output. -/
theorem never_snapshotted_creates (parse : String → Option Time) (format : Time → String)
    (clock : Nat → Time) (dropletName : String) (earlier later : List SurfSnapshot)
    (snapshots : List Image) (actions : List Action)
    (hidle : snapshotsInProgress actions = false) (P : SurfSnapshot)
    (hnone : ∀ S ∈ snapshots, Contains S.Name P.Note = false) (reads : Nat)
    (hreads : reads = readsBefore parse format clock snapshots earlier)
    (hnow : maxDuration ≤ clock reads - zeroTime) (hinterval : P.Interval < maxDuration) :
    policyDirectives parse format clock snapshots reads P =
        creationSequence format (clock (reads + 1)) P ∧
      creationSequence format (clock (reads + 1)) P <:+:
        evaluate parse format clock dropletName (earlier ++ P :: later) snapshots actions := by
  have hsat : timeSub (clock reads) zeroTime = maxDuration :=
    timeSub_zeroTime_of_le (by unfold zeroTime at hnow; simpa using hnow)
  have heq : policyDirectives parse format clock snapshots reads P =
      creationSequence format (clock (reads + 1)) P := by
    rw [policyDirectives_of_no_match hnone, hsat, if_pos hinterval]
  refine ⟨heq, ?_⟩
  rw [← heq, hreads]
  exact policyDirectives_infix_evaluate parse format clock dropletName earlier later snapshots
    actions hidle P

/-- An interval one nanosecond below the greatest duration still triggers the
bracketed creation for a label no snapshot carries, after the two readings of the
policy before it. -/
theorem never_snapshotted_creates_witness :
    policyDirectives sampleParse sampleFormat sampleClock
        [Image.mk 7 "weekly-snap" "2026-10-27T00:00:00Z"] 2
        (SurfSnapshot.mk (maxDuration - 1) (7 * day) "daily" true) =
      [Directive.PowerOff, Directive.CreateSnapshot "surf: daily at 2026-11-04T00:00:03Z",
        Directive.PowerOn] ∧
      creationSequence sampleFormat (sampleClock (2 + 1))
          (SurfSnapshot.mk (maxDuration - 1) (7 * day) "daily" true) <:+:
        evaluate sampleParse sampleFormat sampleClock "web-1"
          ([dailyPolicy] ++ SurfSnapshot.mk (maxDuration - 1) (7 * day) "daily" true :: [])
          [Image.mk 7 "weekly-snap" "2026-10-27T00:00:00Z"] [] :=
  never_snapshotted_creates sampleParse sampleFormat sampleClock "web-1" [dailyPolicy] []
    [Image.mk 7 "weekly-snap" "2026-10-27T00:00:00Z"] [] rfl
    (SurfSnapshot.mk (maxDuration - 1) (7 * day) "daily" true) (by decide) 2 (by decide)
    (by decide) (by decide)

/-- C4, creation decision: without a snapshot in progress, for a policy `P` of the
list with a matching, parseable snapshot, let `latest` be the greatest creation time
over the matching, parseable snapshots, wherever they stand in the list, and `now`
the reading of the clock for the interval test (line 152). For every `latest` not
before the zero time, and for every `latest` at all once `now` is `maxDuration` or
more after the zero time, the directives of `P` (a contiguous part of the output)
contain a `CreateSnapshot` if and only if `now.Sub(latest)` is strictly greater than
`P.Interval`. When the interval is 24 hours, the retention 7 days, the only matching
snapshot was created 2 hours before the first reading of the policy and its
readings up to the interval test lie within the 22 hours after the first, `P` has no
directive at all. -/
theorem creation_decision (parse : String → Option Time) (format : Time → String)
    (clock : Nat → Time) (dropletName : String) (earlier later : List SurfSnapshot)
    (snapshots : List Image) (actions : List Action)
    (hidle : snapshotsInProgress actions = false) (P : SurfSnapshot) (S : Image)
    (hS : S ∈ snapshots) (hname : Contains S.Name P.Note = true) (latest : Time)
    (hparse : parse S.Created = some latest)
    (hmax : ∀ S' ∈ snapshots, Contains S'.Name P.Note = true →
      ∀ created, parse S'.Created = some created → created ≤ latest)
    (reads : Nat) (hreads : reads = readsBefore parse format clock snapshots earlier)
    (hclock : zeroTime ≤ latest ∨
      maxDuration ≤ clock (readAfterScan parse snapshots P reads) - zeroTime) :
    ((∃ name, Directive.CreateSnapshot name ∈
          policyDirectives parse format clock snapshots reads P) ↔
        P.Interval < timeSub (clock (readAfterScan parse snapshots P reads)) latest) ∧
      policyDirectives parse format clock snapshots reads P <:+:
        evaluate parse format clock dropletName (earlier ++ P :: later) snapshots actions ∧
      (P.Interval = 24 * hour → P.Keep = 7 * day → latest = clock reads - 2 * hour →
        (∀ n, reads ≤ n → n ≤ readAfterScan parse snapshots P reads →
          clock n ≤ clock reads + 22 * hour) →
        (∀ S' ∈ snapshots, Contains S'.Name P.Note = true → S' = S) →
        policyDirectives parse format clock snapshots reads P = []) := by
  have hlatest : latestSnapshotTime parse clock snapshots P = max zeroTime latest :=
    latestSnapshotTime_eq_max (mem_matchingTimes.mpr ⟨S, hS, hname, hparse⟩)
      (fun t ht => by
        obtain ⟨S', hS', hc, hp⟩ := mem_matchingTimes.mp ht
        exact hmax S' hS' hc t hp)
  have hdue : P.Interval < timeSub (clock (readAfterScan parse snapshots P reads))
        (latestSnapshotTime parse clock snapshots P) ↔
      P.Interval < timeSub (clock (readAfterScan parse snapshots P reads)) latest := by
    rw [hlatest, timeSub_max_zeroTime hclock]
  refine ⟨?_, by
    rw [hreads]
    exact policyDirectives_infix_evaluate parse format clock dropletName earlier later
      snapshots actions hidle P, ?_⟩
  · rw [← hdue]
    constructor
    · rintro ⟨name, h⟩
      exact ((isCreation_mem_policyDirectives (d := Directive.CreateSnapshot name) rfl).mp h).1
    · intro h
      exact ⟨_, (isCreation_mem_policyDirectives (d := Directive.CreateSnapshot _) rfl).mpr
        ⟨h, create_mem_creationSequence format _ P⟩⟩
  · intro hint hkeep h2 hrun honly
    have hage : ∀ n, reads ≤ n → n ≤ readAfterScan parse snapshots P reads →
        timeSub (clock n) latest ≤ 24 * hour := by
      intro n hn0 hn
      apply timeSub_le_of_le_add (by decide)
      have := hrun n hn0 hn
      rw [h2]
      unfold hour second at *
      simp only [Time, Duration] at *
      omega
    have hdel : deletions parse clock P snapshots reads = [] := by
      rw [List.eq_nil_iff_forall_not_mem]
      intro d hd
      obtain ⟨S', hS', n, hn0, hn, he, -⟩ := mem_deletions_exists hd
      obtain ⟨hc, c, hp, hlt⟩ := isExpired_iff.mp he
      obtain rfl := honly S' hS' hc
      rw [hparse] at hp
      injection hp with hp
      rw [← hp, hkeep] at hlt
      exact absurd (lt_of_lt_of_le hlt (hage n hn0 (le_of_lt hn))) (by decide)
    rw [policyDirectives_eq, hdel, List.nil_append, if_neg]
    rw [hdue, hint]
    exact not_lt.mpr (hage _ (le_readAfterScan _ _ _ _) (le_refl _))

/-- The daily policy with one matching snapshot of 2 hours ago, listed after a
snapshot of another label, has nothing to do. -/
theorem creation_decision_witness :
    policyDirectives sampleParse sampleFormat sampleClock
        [Image.mk 7 "weekly-snap" "2026-10-27T00:00:00Z",
          Image.mk 2 "surf: daily at 2026-11-03T22:00:00Z" "2026-11-03T22:00:00Z"]
        0 dailyPolicy = [] :=
  (creation_decision sampleParse sampleFormat sampleClock "web-2" [] []
    [Image.mk 7 "weekly-snap" "2026-10-27T00:00:00Z",
      Image.mk 2 "surf: daily at 2026-11-03T22:00:00Z" "2026-11-03T22:00:00Z"] []
    rfl dailyPolicy
    (Image.mk 2 "surf: daily at 2026-11-03T22:00:00Z" "2026-11-03T22:00:00Z") (by decide)
    (by decide) (sampleNow - 2 * hour) (by decide) (by decide) 0 rfl (by decide)).2.2
    rfl rfl (by decide) (by decide) (by decide)

/-- C5, power bracketing: the directives of a policy are deletions followed by a
creation part. When creation is due (at the reading of the clock for the interval
test the latest snapshot time is more than the interval back) the creation part is
exactly `PowerOff`, `CreateSnapshot`, `PowerOn` in that order for a policy with
`PowerOff` set, and exactly the one `CreateSnapshot` for a policy without; when
creation is not due the policy emits no `PowerOff`, `CreateSnapshot` or `PowerOn`
at all. -/
theorem power_bracketing (parse : String → Option Time) (format : Time → String)
    (clock : Nat → Time) (snapshots : List Image) (reads : Nat) (P : SurfSnapshot) :
    ∃ ids : List Int,
      (P.Interval < timeSub (clock (readAfterScan parse snapshots P reads))
          (latestSnapshotTime parse clock snapshots P) →
        P.PowerOff = true →
        policyDirectives parse format clock snapshots reads P =
          ids.map Directive.DeleteSnapshot ++
            [Directive.PowerOff,
              Directive.CreateSnapshot
                (snapshotName format (clock (readAfterScan parse snapshots P reads + 1)) P),
              Directive.PowerOn]) ∧
      (P.Interval < timeSub (clock (readAfterScan parse snapshots P reads))
          (latestSnapshotTime parse clock snapshots P) →
        P.PowerOff = false →
        policyDirectives parse format clock snapshots reads P =
          ids.map Directive.DeleteSnapshot ++
            [Directive.CreateSnapshot
              (snapshotName format (clock (readAfterScan parse snapshots P reads + 1)) P)]) ∧
      (¬ P.Interval < timeSub (clock (readAfterScan parse snapshots P reads))
          (latestSnapshotTime parse clock snapshots P) →
        policyDirectives parse format clock snapshots reads P =
            ids.map Directive.DeleteSnapshot ∧
          ∀ d ∈ policyDirectives parse format clock snapshots reads P,
            d ≠ Directive.PowerOff ∧ d ≠ Directive.PowerOn ∧
              ∀ name, d ≠ Directive.CreateSnapshot name) := by
  obtain ⟨expired, -, hdel⟩ := deletions_sublist parse clock P snapshots reads
  have hmap : deletions parse clock P snapshots reads =
      (expired.map Image.ID).map Directive.DeleteSnapshot := by
    rw [hdel, List.map_map]
    rfl
  refine ⟨expired.map Image.ID, ?_, ?_, ?_⟩
  · intro hdue hoff
    rw [policyDirectives_eq, if_pos hdue, hmap]
    unfold creationSequence
    rw [if_pos hoff]
  · intro hdue hoff
    rw [policyDirectives_eq, if_pos hdue, hmap]
    unfold creationSequence
    rw [hoff]
    rfl
  · intro hdue
    have heq : policyDirectives parse format clock snapshots reads P =
        (expired.map Image.ID).map Directive.DeleteSnapshot := by
      rw [policyDirectives_eq, if_neg hdue, List.append_nil, hmap]
    refine ⟨heq, ?_⟩
    intro d hd
    rw [heq] at hd
    obtain ⟨id, -, rfl⟩ := List.mem_map.mp hd
    exact ⟨by simp, by simp, by simp⟩

/-- C6, parse-failure isolation: for every list of policies, actions and snapshots,
`evaluate` returns the same directives as on the snapshot list with every snapshot
whose creation timestamp fails to parse removed; the latest snapshot time of every
policy is the same on both lists, and the iteration on an unparseable snapshot
leaves the latest time, the directives emitted and the count of clock readings as
they were. -/
theorem parse_failure_isolation (parse : String → Option Time) (format : Time → String)
    (clock : Nat → Time) (dropletName : String) (policies : List SurfSnapshot)
    (snapshots : List Image) (actions : List Action) :
    evaluate parse format clock dropletName policies snapshots actions =
        evaluate parse format clock dropletName policies
          (snapshots.filter (fun S => (parse S.Created).isSome)) actions ∧
      (∀ P : SurfSnapshot,
        latestSnapshotTime parse clock snapshots P =
          latestSnapshotTime parse clock
            (snapshots.filter (fun S => (parse S.Created).isSome)) P) ∧
      (∀ (P : SurfSnapshot) (st : Scan) (S : Image),
        parse S.Created = none → scanSnapshot parse clock P st S = st) := by
  refine ⟨?_, ?_, ?_⟩
  · unfold evaluate
    have hfun : evalPolicy parse format clock
          (snapshots.filter (fun S => (parse S.Created).isSome)) =
        evalPolicy parse format clock snapshots :=
      funext fun run => funext fun P => evalPolicy_filter parse format clock snapshots run P
    rw [hfun]
  · intro P
    unfold latestSnapshotTime scanSnapshots
    rw [foldl_scanSnapshot_filter]
  · intro P st S h
    exact scanSnapshot_of_unparseable parse clock P st S h

/-- C7, counterexample: for the policy of interval 24 hours, retention 7 days and
label "daily" and the one snapshot "daily-snap" created 8 days before the first
reading of the clock, the creation directive carries the name
"surf: daily at 2026-11-04T00:00:02Z", not "daily". -/
theorem directive_order_counterexample :
    sampleParse "2026-10-27T00:00:00Z" = some (sampleClock 0 - 8 * day) ∧
      evaluate sampleParse sampleFormat sampleClock "web-1" [dailyPolicy]
          [Image.mk 1 "daily-snap" "2026-10-27T00:00:00Z"] [] =
        [Directive.DeleteSnapshot 1,
          Directive.CreateSnapshot "surf: daily at 2026-11-04T00:00:02Z"] ∧
      evaluate sampleParse sampleFormat sampleClock "web-1" [dailyPolicy]
          [Image.mk 1 "daily-snap" "2026-10-27T00:00:00Z"] [] ≠
        [Directive.DeleteSnapshot 1, Directive.CreateSnapshot "daily"] := by
  decide

/-- C7, as amended: without a snapshot in progress the output is the concatenation,
in the order of the policies, of the directives of each policy on the same snapshot
list, each at the clock readings of its own turn; the directives of one policy are
a `DeleteSnapshot` for each of the snapshots it finds expired, in snapshot-list
order, followed by the creation sequence when creation is due, and no directive of
a creation sequence is a deletion. For the policy of interval 24 hours, retention 7
days, label "daily" and no power-off and the one snapshot "daily-snap" created 8
days before the first reading of the clock and not before the zero time, with a
second reading not earlier than the first, the output is the deletion of that
snapshot followed by `CreateSnapshot` with the name "surf: daily at " and the
formatted third reading. -/
theorem directive_order (parse : String → Option Time) (format : Time → String)
    (clock : Nat → Time) (dropletName : String) (policies : List SurfSnapshot)
    (snapshots : List Image) (actions : List Action)
    (hidle : snapshotsInProgress actions = false) :
    evaluate parse format clock dropletName policies snapshots actions =
        concatDirectives parse format clock snapshots policies 0 ∧
      (∀ (P : SurfSnapshot) (reads : Nat), ∃ expired : List Image,
        expired.Sublist snapshots ∧
        policyDirectives parse format clock snapshots reads P =
          expired.map (fun S => Directive.DeleteSnapshot S.ID) ++
            if P.Interval < timeSub (clock (readAfterScan parse snapshots P reads))
                (latestSnapshotTime parse clock snapshots P) then
              creationSequence format (clock (readAfterScan parse snapshots P reads + 1)) P
            else []) ∧
      (∀ (P : SurfSnapshot) (now : Time) (d : Directive), d ∈ creationSequence format now P →
        ∀ id, d ≠ Directive.DeleteSnapshot id) ∧
      (∀ (id : Int) (created : String), parse created = some (clock 0 - 8 * day) →
        zeroTime ≤ clock 0 - 8 * day → clock 0 ≤ clock 1 →
        evaluate parse format clock dropletName [dailyPolicy]
            [Image.mk id "daily-snap" created] actions =
          [Directive.DeleteSnapshot id,
            Directive.CreateSnapshot ("surf: daily at " ++ format (clock 2))]) := by
  refine ⟨evaluate_of_idle parse format clock dropletName policies snapshots actions hidle,
    ?_, ?_, ?_⟩
  · intro P reads
    obtain ⟨expired, hsub, hdel⟩ := deletions_sublist parse clock P snapshots reads
    exact ⟨expired, hsub, by rw [policyDirectives_eq, hdel]⟩
  · intro P now d hd id hid
    have h := isCreation_of_mem_creationSequence hd
    rw [hid] at h
    cases h
  · intro id created hparse hzero hmono
    have hname : Contains (Image.mk id "daily-snap" created).Name dailyPolicy.Note = true :=
      (by decide : Contains "daily-snap" "daily" = true)
    have hcreated : createdAt parse dailyPolicy (Image.mk id "daily-snap" created) =
        some (clock 0 - 8 * day) :=
      createdAt_eq_some.mpr ⟨hname, hparse⟩
    have hage : timeSub (clock 0) (clock 0 - 8 * day) = 8 * day := timeSub_self_sub (by decide)
    have hlatest : latestSnapshotTime parse clock [Image.mk id "daily-snap" created]
        dailyPolicy = clock 0 - 8 * day := by
      rw [latestSnapshotTime_eq]
      unfold matchingTimes
      rw [List.filterMap_cons, hcreated]
      exact max_eq_right hzero
    have hread : readAfterScan parse [Image.mk id "daily-snap" created] dailyPolicy 0 = 1 := by
      unfold readAfterScan matchingTimes
      rw [List.filterMap_cons, hcreated]
      rfl
    have hexp : isExpired parse (clock 0) dailyPolicy (Image.mk id "daily-snap" created) =
        true :=
      isExpired_iff.mpr ⟨hname, clock 0 - 8 * day, hparse, by rw [hage]; decide⟩
    have hdue : dailyPolicy.Interval < timeSub (clock 1) (clock 0 - 8 * day) :=
      lt_of_lt_of_le (by rw [hage]; decide) (timeSub_mono_left _ hmono)
    rw [evaluate_of_idle parse format clock dropletName _ _ actions hidle]
    simp only [concatDirectives, List.append_nil]
    rw [policyDirectives_eq, hlatest, hread, if_pos hdue, deletions_cons_of_some clock hcreated,
      if_pos hexp]
    rfl

/-- The scenario under the ticking clock: the deletion, then the creation under its
full name, formatted at the third reading. -/
theorem directive_order_witness :
    evaluate sampleParse sampleFormat sampleClock "web-1" [dailyPolicy]
        [Image.mk 1 "daily-snap" "2026-10-27T00:00:00Z"] [] =
      [Directive.DeleteSnapshot 1,
        Directive.CreateSnapshot ("surf: daily at " ++ sampleFormat (sampleClock 2))] :=
  (directive_order sampleParse sampleFormat sampleClock "web-1" [dailyPolicy]
    [Image.mk 1 "daily-snap" "2026-10-27T00:00:00Z"] [] rfl).2.2.2 1 "2026-10-27T00:00:00Z"
    (by decide) (by decide) (by decide)

/-- C8, creation fires once: without a snapshot in progress, when the snapshot list
holds a snapshot named as the creation directive of policy `P` at time `t` names it
("surf: ", the label, " at ", the formatted `t`) whose creation timestamp parses to
`t`, that snapshot matches the label of `P` and, whenever the reading `now` of the
clock for the interval test (line 152) has `now.Sub(t)` at most `P.Interval`, the
directives of `P` (a contiguous part of the output) hold no `PowerOff`,
`CreateSnapshot` or `PowerOn`. -/
theorem creation_fires_once (parse : String → Option Time) (format : Time → String)
    (t : Time) (clock : Nat → Time) (dropletName : String) (earlier later : List SurfSnapshot)
    (snapshots : List Image) (actions : List Action)
    (hidle : snapshotsInProgress actions = false) (P : SurfSnapshot)
    (S : Image) (hS : S ∈ snapshots) (hname : S.Name = snapshotName format t P)
    (hparse : parse S.Created = some t) (reads : Nat)
    (hreads : reads = readsBefore parse format clock snapshots earlier)
    (hnow : timeSub (clock (readAfterScan parse snapshots P reads)) t ≤ P.Interval) :
    Contains S.Name P.Note = true ∧
      (∀ d ∈ policyDirectives parse format clock snapshots reads P, d.isCreation = false) ∧
      policyDirectives parse format clock snapshots reads P <:+:
        evaluate parse format clock dropletName (earlier ++ P :: later) snapshots actions := by
  have hmatch : Contains S.Name P.Note = true := by
    rw [hname]
    unfold snapshotName
    rw [String.append_assoc]
    exact Contains_append_mid _ _ _
  refine ⟨hmatch, ?_, by
    rw [hreads]
    exact policyDirectives_infix_evaluate parse format clock dropletName earlier later
      snapshots actions hidle P⟩
  intro d hd
  cases hc : d.isCreation with
  | false => rfl
  | true =>
    have hdue := ((isCreation_mem_policyDirectives hc).mp hd).1
    have hle : timeSub (clock (readAfterScan parse snapshots P reads))
          (latestSnapshotTime parse clock snapshots P) ≤
        timeSub (clock (readAfterScan parse snapshots P reads)) t :=
      timeSub_anti_right _ (le_latestSnapshotTime hS hmatch hparse)
    exact absurd (lt_of_lt_of_le hdue (le_trans hle hnow)) (lt_irrefl _)

/-- A run whose interval test reads the clock exactly a day after the snapshot named
by the daily policy at `sampleNow` was taken: the interval is reached but not
exceeded, and nothing is created. -/
theorem creation_fires_once_witness :
    Contains "surf: daily at 2026-11-04T00:00:00Z" "daily" = true ∧
      (∀ d ∈ policyDirectives sampleParse sampleFormat
          (tickingClock (sampleNow + 24 * hour - second))
          [Image.mk 9 "surf: daily at 2026-11-04T00:00:00Z" "2026-11-04T00:00:00Z"]
          0 dailyPolicy, d.isCreation = false) ∧
      policyDirectives sampleParse sampleFormat (tickingClock (sampleNow + 24 * hour - second))
          [Image.mk 9 "surf: daily at 2026-11-04T00:00:00Z" "2026-11-04T00:00:00Z"]
          0 dailyPolicy <:+:
        evaluate sampleParse sampleFormat (tickingClock (sampleNow + 24 * hour - second))
          "web-1" [dailyPolicy]
          [Image.mk 9 "surf: daily at 2026-11-04T00:00:00Z" "2026-11-04T00:00:00Z"] [] :=
  creation_fires_once sampleParse sampleFormat sampleNow
    (tickingClock (sampleNow + 24 * hour - second)) "web-1" [] []
    [Image.mk 9 "surf: daily at 2026-11-04T00:00:00Z" "2026-11-04T00:00:00Z"] []
    rfl dailyPolicy
    (Image.mk 9 "surf: daily at 2026-11-04T00:00:00Z" "2026-11-04T00:00:00Z") (by decide)
    (by decide) (by decide) 0 rfl (by decide)

/-- C9, overlapping labels: without a snapshot in progress, for two policies `P1` and
`P2` at different places of the policy list and a parseable snapshot `S` of the list
whose name contains both labels, `S` counts towards the latest snapshot time of both
policies, and when at the readings of the clock `now.Sub(created)` exceeds both
retentions each of the two policies emits `DeleteSnapshot S.ID`, so the output holds
it at least twice. -/
theorem overlapping_labels (parse : String → Option Time) (format : Time → String)
    (clock : Nat → Time) (dropletName : String) (policies : List SurfSnapshot)
    (snapshots : List Image) (actions : List Action)
    (hidle : snapshotsInProgress actions = false)
    (i j : Nat) (hij : i ≠ j) (P1 P2 : SurfSnapshot)
    (h1 : policies[i]? = some P1) (h2 : policies[j]? = some P2)
    (S : Image) (hS : S ∈ snapshots) (created : Time) (hparse : parse S.Created = some created)
    (hname1 : Contains S.Name P1.Note = true) (hname2 : Contains S.Name P2.Note = true) :
    created ≤ latestSnapshotTime parse clock snapshots P1 ∧
      created ≤ latestSnapshotTime parse clock snapshots P2 ∧
      ((∀ n, P1.Keep < timeSub (clock n) created) →
        (∀ n, P2.Keep < timeSub (clock n) created) →
        (∀ reads, Directive.DeleteSnapshot S.ID ∈
            policyDirectives parse format clock snapshots reads P1) ∧
          (∀ reads, Directive.DeleteSnapshot S.ID ∈
            policyDirectives parse format clock snapshots reads P2) ∧
          2 ≤ (evaluate parse format clock dropletName policies snapshots actions).count
            (Directive.DeleteSnapshot S.ID)) := by
  refine ⟨le_latestSnapshotTime hS hname1 hparse, le_latestSnapshotTime hS hname2 hparse, ?_⟩
  intro hk1 hk2
  obtain ⟨pre, post, rfl⟩ := List.append_of_mem hS
  have hd1 : ∀ reads, Directive.DeleteSnapshot S.ID ∈
      policyDirectives parse format clock (pre ++ S :: post) reads P1 := fun reads =>
    delete_mem_policyDirectives.mpr
      (delete_mem_deletions pre post (isExpired_iff.mpr ⟨hname1, created, hparse, hk1 _⟩))
  have hd2 : ∀ reads, Directive.DeleteSnapshot S.ID ∈
      policyDirectives parse format clock (pre ++ S :: post) reads P2 := fun reads =>
    delete_mem_policyDirectives.mpr
      (delete_mem_deletions pre post (isExpired_iff.mpr ⟨hname2, created, hparse, hk2 _⟩))
  refine ⟨hd1, hd2, ?_⟩
  rw [evaluate_of_idle parse format clock dropletName policies _ actions hidle]
  exact two_le_count_concatDirectives parse format clock _ _ P1 P2 hd1 hd2 policies i j hij
    h1 h2 0

/-- Two policies with the labels "daily" and "daily-snap" both delete the one
snapshot "daily-snap", 8 days old at the first reading of the ticking clock: its
deletion stands twice in the output. -/
theorem overlapping_labels_witness :
    (evaluate sampleParse sampleFormat sampleClock "web-3"
        [SurfSnapshot.mk (24 * hour) (7 * day) "daily" false,
          SurfSnapshot.mk (24 * hour) (2 * day) "daily-snap" false]
        [Image.mk 1 "daily-snap" "2026-10-27T00:00:00Z"] []).count
        (Directive.DeleteSnapshot 1) = 2 :=
  le_antisymm (by decide)
    ((overlapping_labels sampleParse sampleFormat sampleClock "web-3"
      [SurfSnapshot.mk (24 * hour) (7 * day) "daily" false,
        SurfSnapshot.mk (24 * hour) (2 * day) "daily-snap" false]
      [Image.mk 1 "daily-snap" "2026-10-27T00:00:00Z"] [] rfl 0 1 (by decide)
      (SurfSnapshot.mk (24 * hour) (7 * day) "daily" false)
      (SurfSnapshot.mk (24 * hour) (2 * day) "daily-snap" false) rfl rfl
      (Image.mk 1 "daily-snap" "2026-10-27T00:00:00Z") (by decide) (sampleNow - 8 * day)
      (by decide) (by decide) (by decide)).2.2
      (fun n => lt_of_lt_of_le (by decide : (7 * day : Duration) <
          timeSub (tickingClock sampleNow 0) (sampleNow - 8 * day))
        (timeSub_mono_left _ (tickingClock_mono sampleNow (Nat.zero_le n))))
      (fun n => lt_of_lt_of_le (by decide : (2 * day : Duration) <
          timeSub (tickingClock sampleNow 0) (sampleNow - 8 * day))
        (timeSub_mono_left _ (tickingClock_mono sampleNow (Nat.zero_le n))))).2.2

/-- C10, deletions stay within correlated snapshots: every `DeleteSnapshot id` of the
output carries the ID of a snapshot of the input list whose name contains the label
of a policy of the list, and a policy with the empty label correlates with every
snapshot, since every name contains the empty string. -/
theorem deletions_within_correlated (parse : String → Option Time) (format : Time → String)
    (clock : Nat → Time) (dropletName : String) (policies : List SurfSnapshot)
    (snapshots : List Image) (actions : List Action) :
    (∀ id : Int,
      Directive.DeleteSnapshot id ∈
          evaluate parse format clock dropletName policies snapshots actions →
        ∃ S ∈ snapshots, S.ID = id ∧ ∃ P ∈ policies, Contains S.Name P.Note = true) ∧
      (∀ (P : SurfSnapshot) (S : Image), P.Note = "" → Contains S.Name P.Note = true) := by
  constructor
  · intro id hmem
    cases hbusy : snapshotsInProgress actions with
    | true =>
      unfold evaluate at hmem
      rw [hbusy, if_pos rfl] at hmem
      simp at hmem
    | false =>
      rw [evaluate_of_idle parse format clock dropletName policies snapshots actions hbusy]
        at hmem
      have key : ∀ (l : List SurfSnapshot) (reads : Nat),
          Directive.DeleteSnapshot id ∈ concatDirectives parse format clock snapshots l reads →
          ∃ P ∈ l, ∃ r, Directive.DeleteSnapshot id ∈
            policyDirectives parse format clock snapshots r P := by
        intro l
        induction l with
        | nil =>
          intro reads h
          simp [concatDirectives] at h
        | cons x xs ih =>
          intro reads h
          rw [concatDirectives, List.mem_append] at h
          rcases h with h | h
          · exact ⟨x, List.mem_cons_self x xs, reads, h⟩
          · obtain ⟨P, hP, r, hr⟩ := ih _ h
            exact ⟨P, List.mem_cons_of_mem x hP, r, hr⟩
      obtain ⟨P, hP, r, hd⟩ := key policies 0 hmem
      obtain ⟨S, hS, n, -, -, he, hid⟩ :=
        mem_deletions_exists (delete_mem_policyDirectives.mp hd)
      injection hid with hid
      exact ⟨S, hS, hid.symm, P, hP, (isExpired_iff.mp he).1⟩
  · intro P S h
    rw [h]
    exact Contains_empty S.Name

end Surf
